import Mathlib

/-!
Verification of the DeepLearningEAIA tutorial-notebook pipeline.

The notebooks orchestrate a Keras MNIST pipeline: dataset loading and
subsampling, pixel normalization, one-hot label encoding, sequential model
building, `fit` training with a per-epoch history, `evaluate` /
`predict_classes` reporting with a confusion matrix, and a TensorBoard
experiment counter with per-run log directories.

This file gives a shallow embedding of those operations.  Pure numeric
operations are translated to executable Lean functions over `Nat` / `Rat`
lists (floats modelled by exact rationals); the library calls the notebooks
make (`keras.utils.to_categorical`, `numpy.random.choice`,
`sklearn.metrics.confusion_matrix`, `numpy.argmax`, `model.fit`,
`model.evaluate`, `model.predict_classes`) are modelled from their documented
behaviour exactly as the notebooks invoke them.  Stateful notebook cells
(the experiment counter, the evaluation cell) are embedded by explicit state
passing.
-/

/-- One-hot label encoding.  Models `keras.utils.to_categorical(y, K)` as
called in part_000 line 82, part_001 line 106 and part_002 line 474: an
integer class label `y` becomes a length-`K` indicator vector with a `1` at
index `y` and `0` elsewhere. -/
def to_categorical (y K : Nat) : List Nat :=
  (List.range K).map fun j => if j = y then 1 else 0

/-- Maximum of a list, `none` on the empty list.  Helper for `argmaxIdx`. -/
def listMaxOpt {α : Type} [LinearOrder α] : List α → Option α
  | [] => none
  | a :: l =>
    match listMaxOpt l with
    | none => some a
    | some b => some (max a b)

/-- Index of the first occurrence of the maximum, as computed by
`numpy.argmax` (part_001 line 574) and by the argmax underlying
`model.predict_classes` (part_001 line 542).  Returns `0` on the empty
list. -/
def argmaxIdx {α : Type} [LinearOrder α] : List α → Nat
  | [] => 0
  | a :: l =>
    match listMaxOpt l with
    | none => 0
    | some m => if m ≤ a then 0 else argmaxIdx l + 1

lemma listMaxOpt_replicate_zero (m : Nat) :
    listMaxOpt (List.replicate m (0 : Nat)) = if m = 0 then none else some 0 := by
  induction m with
  | zero => rfl
  | succ m ih =>
    rw [List.replicate_succ, listMaxOpt, ih]
    cases m <;> simp

lemma listMaxOpt_onehot_tail (m : Nat) :
    listMaxOpt (1 :: List.replicate m (0 : Nat)) = some 1 := by
  rw [listMaxOpt, listMaxOpt_replicate_zero]
  cases m <;> simp

lemma listMaxOpt_onehot (y m : Nat) :
    listMaxOpt (List.replicate y 0 ++ 1 :: List.replicate m (0 : Nat)) = some 1 := by
  induction y with
  | zero => simpa using listMaxOpt_onehot_tail m
  | succ y ih =>
    rw [List.replicate_succ, List.cons_append, listMaxOpt, ih]
    simp

lemma argmaxIdx_onehot (y m : Nat) :
    argmaxIdx (List.replicate y 0 ++ 1 :: List.replicate m (0 : Nat)) = y := by
  induction y with
  | zero =>
    rw [List.replicate_zero, List.nil_append, argmaxIdx, listMaxOpt_replicate_zero]
    cases m <;> simp
  | succ y ih =>
    rw [List.replicate_succ, List.cons_append, argmaxIdx, listMaxOpt_onehot]
    simp [ih]

lemma map_zero_fn_eq_replicate (l : List Nat) :
    (l.map fun _ => (0 : Nat)) = List.replicate l.length 0 := by
  induction l with
  | nil => rfl
  | cons a l ih => simp [List.replicate_succ, ih]

/-- Structure of a one-hot vector: zeros, a single one at index `y`, zeros. -/
lemma to_categorical_eq (y K : Nat) (h : y < K) :
    to_categorical y K =
      List.replicate y 0 ++ 1 :: List.replicate (K - y - 1) 0 := by
  induction y generalizing K with
  | zero =>
    cases K with
    | zero => omega
    | succ K =>
      rw [to_categorical, List.range_succ_eq_map]
      simp only [List.map_cons, if_pos rfl, List.map_map]
      have : ((fun j => if j = 0 then 1 else 0) ∘ Nat.succ) = fun _ : Nat => (0 : Nat) := by
        funext j; simp
      rw [this, map_zero_fn_eq_replicate]
      simp
  | succ y ih =>
    cases K with
    | zero => omega
    | succ K =>
      have hy : y < K := by omega
      rw [to_categorical, List.range_succ_eq_map]
      simp only [List.map_cons, List.map_map]
      have h0 : (if (0 : Nat) = y + 1 then (1 : Nat) else 0) = 0 := by simp
      have hfn : ((fun j => if j = y + 1 then (1 : Nat) else 0) ∘ Nat.succ)
          = fun j => if j = y then (1 : Nat) else 0 := by
        funext j; simp [Nat.succ_inj]
      rw [h0, hfn]
      have := ih K hy
      rw [to_categorical] at this
      rw [this, List.replicate_succ]
      simp

/-- C3: for every integer label `y` with `0 ≤ y < K`, one-hot encoding with
`K` classes produces a length-`K` vector whose entries sum to `1`, with
exactly one entry equal to `1` (at index `y`) and all others `0`, and taking
the argmax of that vector recovers `y`. -/
theorem C3_onehot_roundtrip (y K : Nat) (h : y < K) :
    (to_categorical y K).length = K ∧
    (to_categorical y K).sum = 1 ∧
    (to_categorical y K).getD y 0 = 1 ∧
    (∀ j, j < K → j ≠ y → (to_categorical y K).getD j 0 = 0) ∧
    argmaxIdx (to_categorical y K) = y := by
  have hlen : (to_categorical y K).length = K := by
    simp [to_categorical]
  refine ⟨hlen, ?_, ?_, ?_, ?_⟩
  · rw [to_categorical_eq y K h]
    simp [List.sum_replicate]
  · have hy : y < (to_categorical y K).length := by rw [hlen]; exact h
    rw [List.getD_eq_getElem _ _ hy]
    simp [to_categorical]
  · intro j hj hne
    have hj' : j < (to_categorical y K).length := by rw [hlen]; exact hj
    rw [List.getD_eq_getElem _ _ hj']
    simp [to_categorical, hne]
  · rw [to_categorical_eq y K h]
    exact argmaxIdx_onehot y (K - y - 1)

/-- Witness for C3 at `y = 3`, `K = 10`. -/
theorem C3_onehot_roundtrip_witness :
    argmaxIdx (to_categorical 3 10) = 3 :=
  (C3_onehot_roundtrip 3 10 (by decide)).2.2.2.2

/-- Pixel normalization.  Models `x_train /= 255` / `x_test /= 255`
(part_000 lines 78-79, part_001 lines 102-103, part_002 lines 467-468):
a raw pixel intensity `p` (a byte value) is divided by `255`.  The float
arithmetic of the source is modelled by exact rationals. -/
def normalizePixel (p : Nat) : ℚ := (p : ℚ) / 255

/-- C6: for every loaded pixel value `p` in `[0, 255]`, the normalized value
`p/255` lies in `[0, 1]`; in particular normalization maps `0` to `0` and
`255` to `1`. -/
theorem C6_normalization_range (p : Nat) (h : p ≤ 255) :
    0 ≤ normalizePixel p ∧ normalizePixel p ≤ 1 ∧ normalizePixel 0 = 0 ∧ normalizePixel 255 = 1 := by
  refine ⟨?_, ?_, ?_, ?_⟩
  · exact div_nonneg (by positivity) (by norm_num)
  · rw [normalizePixel, div_le_one (by norm_num)]
    exact_mod_cast h
  · norm_num [normalizePixel]
  · norm_num [normalizePixel]

/-- Witness for C6 at `p = 100`. -/
theorem C6_normalization_range_witness :
    0 ≤ normalizePixel 100 ∧ normalizePixel 100 ≤ 1 :=
  ⟨(C6_normalization_range 100 (by norm_num)).1,
   (C6_normalization_range 100 (by norm_num)).2.1⟩

/-- Cross-tabulation of true vs. predicted labels over a list of
`(true, predicted)` pairs: cell `(i, j)` counts the pairs with true class
`i` and predicted class `j`.  Core of `sklearn.metrics.confusion_matrix`
as called in part_001 line 574 with label set `0 .. K-1`. -/
def cmOfPairs (K : Nat) (l : List (Nat × Nat)) : List (List Nat) :=
  (List.range K).map fun i =>
    (List.range K).map fun j =>
      l.countP fun tp => tp.1 == i && tp.2 == j

/-- `confusion_matrix(y_true, y_pred)` (part_001 line 574): pair the two
label sequences positionally and cross-tabulate. -/
def confusion_matrix (K : Nat) (yTrue yPred : List Nat) : List (List Nat) :=
  cmOfPairs K (yTrue.zip yPred)

/-- Number of positions where the prediction matches the true label. -/
def correctCount (yTrue yPred : List Nat) : Nat :=
  (yTrue.zip yPred).countP fun tp => tp.1 == tp.2

/-- Accuracy: fraction of evaluated examples predicted correctly, as
reported by `model.evaluate` (part_001 line 514). -/
def accuracy (yTrue yPred : List Nat) : ℚ :=
  (correctCount yTrue yPred : ℚ) / ((yTrue.zip yPred).length : ℚ)

/-- Sum of every cell of a matrix given as a list of rows. -/
def matrixTotal (m : List (List Nat)) : Nat := (m.map List.sum).sum

/-- Sum of the main diagonal of a matrix given as a list of rows. -/
def diagSum (m : List (List Nat)) : Nat :=
  ((List.range m.length).map fun i => (m.getD i []).getD i 0).sum

lemma sum_map_range (f : Nat → Nat) (n : Nat) :
    ((List.range n).map f).sum = ∑ i ∈ Finset.range n, f i := by
  induction n with
  | zero => simp
  | succ n ih =>
    rw [List.range_succ, List.map_append, List.sum_append, Finset.sum_range_succ, ih]
    simp

lemma ite_beq_pair (a : Nat × Nat) (i j : Nat) :
    (if (a.1 == i && a.2 == j) = true then (1 : Nat) else 0)
      = if a.1 = i ∧ a.2 = j then 1 else 0 := by
  by_cases hc : (a.1 == i && a.2 == j) = true
  · have h' : a.1 = i ∧ a.2 = j := by simpa [Bool.and_eq_true, beq_iff_eq] using hc
    rw [if_pos hc, if_pos h']
  · have h' : ¬(a.1 = i ∧ a.2 = j) := by simpa [Bool.and_eq_true, beq_iff_eq] using hc
    rw [if_neg hc, if_neg h']

lemma ite_beq_eq (a : Nat × Nat) :
    (if (a.1 == a.2) = true then (1 : Nat) else 0) = if a.1 = a.2 then 1 else 0 := by
  by_cases hc : a.1 = a.2 <;> simp [hc]

lemma indicator_double_sum (K a b : Nat) (ha : a < K) (hb : b < K) :
    (∑ i ∈ Finset.range K, ∑ j ∈ Finset.range K,
        (if a = i ∧ b = j then (1 : Nat) else 0)) = 1 := by
  have hrow : ∀ i, (∑ j ∈ Finset.range K, (if a = i ∧ b = j then (1 : Nat) else 0))
      = if a = i then 1 else 0 := by
    intro i
    by_cases hai : a = i
    · simp [hai, Finset.sum_ite_eq, Finset.mem_range, hb]
    · simp [hai]
  rw [Finset.sum_congr rfl fun i _ => hrow i]
  simp [Finset.sum_ite_eq, Finset.mem_range, ha]

lemma indicator_diag_sum (K a b : Nat) (ha : a < K) :
    (∑ i ∈ Finset.range K, (if a = i ∧ b = i then (1 : Nat) else 0))
      = if a = b then 1 else 0 := by
  by_cases hab : a = b
  · subst hab
    simp [and_self, Finset.sum_ite_eq, Finset.mem_range, ha]
  · have hz : ∀ i, (if a = i ∧ b = i then (1 : Nat) else 0) = 0 := by
      intro i
      rw [if_neg]
      rintro ⟨h1, h2⟩
      exact hab (by omega)
    simp [hz, hab]

lemma cm_total_ofPairs (K : Nat) (l : List (Nat × Nat))
    (hl : ∀ x ∈ l, x.1 < K ∧ x.2 < K) :
    (∑ i ∈ Finset.range K, ∑ j ∈ Finset.range K,
        l.countP fun tp => tp.1 == i && tp.2 == j) = l.length := by
  induction l with
  | nil => simp
  | cons a l ih =>
    have ha := hl a (List.mem_cons_self a l)
    have hl' : ∀ x ∈ l, x.1 < K ∧ x.2 < K := fun x hx => hl x (List.mem_cons_of_mem a hx)
    have hind : (∑ i ∈ Finset.range K, ∑ j ∈ Finset.range K,
        (if (a.1 == i && a.2 == j) = true then (1 : Nat) else 0)) = 1 := by
      have step : (∑ i ∈ Finset.range K, ∑ j ∈ Finset.range K,
          (if (a.1 == i && a.2 == j) = true then (1 : Nat) else 0))
          = ∑ i ∈ Finset.range K, ∑ j ∈ Finset.range K,
              (if a.1 = i ∧ a.2 = j then (1 : Nat) else 0) :=
        Finset.sum_congr rfl fun i _ => Finset.sum_congr rfl fun j _ => ite_beq_pair a i j
      rw [step]
      exact indicator_double_sum K a.1 a.2 ha.1 ha.2
    simp only [List.countP_cons, Finset.sum_add_distrib, ih hl', hind, List.length_cons]

lemma cm_diag_ofPairs (K : Nat) (l : List (Nat × Nat))
    (hl : ∀ x ∈ l, x.1 < K) :
    (∑ i ∈ Finset.range K, l.countP fun tp => tp.1 == i && tp.2 == i)
      = l.countP fun tp => tp.1 == tp.2 := by
  induction l with
  | nil => simp
  | cons a l ih =>
    have ha := hl a (List.mem_cons_self a l)
    have hl' : ∀ x ∈ l, x.1 < K := fun x hx => hl x (List.mem_cons_of_mem a hx)
    have hind : (∑ i ∈ Finset.range K,
        (if (a.1 == i && a.2 == i) = true then (1 : Nat) else 0))
          = if (a.1 == a.2) = true then 1 else 0 := by
      have step : (∑ i ∈ Finset.range K,
          (if (a.1 == i && a.2 == i) = true then (1 : Nat) else 0))
          = ∑ i ∈ Finset.range K, (if a.1 = i ∧ a.2 = i then (1 : Nat) else 0) :=
        Finset.sum_congr rfl fun i _ => ite_beq_pair a i i
      rw [step, indicator_diag_sum K a.1 a.2 ha, ← ite_beq_eq a]
    simp only [List.countP_cons, Finset.sum_add_distrib, ih hl', hind]

lemma length_cmOfPairs (K : Nat) (l : List (Nat × Nat)) :
    (cmOfPairs K l).length = K := by
  simp [cmOfPairs]

lemma cell_cmOfPairs (K : Nat) (l : List (Nat × Nat)) (i j : Nat)
    (hi : i < K) (hj : j < K) :
    ((cmOfPairs K l).getD i []).getD j 0
      = l.countP fun tp => tp.1 == i && tp.2 == j := by
  have hi' : i < (cmOfPairs K l).length := by rw [length_cmOfPairs]; exact hi
  rw [List.getD_eq_getElem _ _ hi']
  have hrow : (cmOfPairs K l)[i] = (List.range K).map fun j =>
      l.countP fun tp => tp.1 == i && tp.2 == j := by
    simp [cmOfPairs]
  rw [hrow]
  have hj' : j < ((List.range K).map fun j =>
      l.countP fun tp => tp.1 == i && tp.2 == j).length := by
    simpa using hj
  rw [List.getD_eq_getElem _ _ hj']
  simp

lemma matrixTotal_cmOfPairs (K : Nat) (l : List (Nat × Nat)) :
    matrixTotal (cmOfPairs K l)
      = ∑ i ∈ Finset.range K, ∑ j ∈ Finset.range K,
          l.countP fun tp => tp.1 == i && tp.2 == j := by
  rw [matrixTotal, cmOfPairs, List.map_map]
  rw [sum_map_range]
  exact Finset.sum_congr rfl fun i _ => sum_map_range _ K

lemma diagSum_cmOfPairs (K : Nat) (l : List (Nat × Nat)) :
    diagSum (cmOfPairs K l)
      = ∑ i ∈ Finset.range K, l.countP fun tp => tp.1 == i && tp.2 == i := by
  rw [diagSum, length_cmOfPairs]
  rw [← sum_map_range]
  congr 1
  refine List.map_congr_left fun i hi => ?_
  exact cell_cmOfPairs K l i i (List.mem_range.1 hi) (List.mem_range.1 hi)

/-- C4: for every evaluated set of `N` examples over `K` classes, the
confusion matrix is a `K × K` grid in which cell `(i, j)` equals the number
of examples with true class `i` predicted as class `j`, the sum over all
cells equals `N`, and the sum of the diagonal equals the number of correct
predictions (accuracy times `N`). -/
theorem C4_confusion_matrix_counts (K N : Nat) (yTrue yPred : List Nat)
    (hT : yTrue.length = N) (hP : yPred.length = N)
    (hK : ∀ x ∈ yTrue.zip yPred, x.1 < K ∧ x.2 < K) :
    (confusion_matrix K yTrue yPred).length = K ∧
    (∀ i j, i < K → j < K →
      ((confusion_matrix K yTrue yPred).getD i []).getD j 0
        = (yTrue.zip yPred).countP fun tp => tp.1 == i && tp.2 == j) ∧
    matrixTotal (confusion_matrix K yTrue yPred) = N ∧
    diagSum (confusion_matrix K yTrue yPred) = correctCount yTrue yPred ∧
    (N ≠ 0 → (diagSum (confusion_matrix K yTrue yPred) : ℚ)
        = accuracy yTrue yPred * N) := by
  have hzip : (yTrue.zip yPred).length = N := by
    rw [List.length_zip, hT, hP, min_self]
  have hdiag : diagSum (confusion_matrix K yTrue yPred) = correctCount yTrue yPred := by
    rw [confusion_matrix, diagSum_cmOfPairs, correctCount]
    exact cm_diag_ofPairs K _ fun x hx => (hK x hx).1
  refine ⟨length_cmOfPairs K _, fun i j hi hj => cell_cmOfPairs K _ i j hi hj, ?_, hdiag, ?_⟩
  · rw [confusion_matrix, matrixTotal_cmOfPairs, cm_total_ofPairs K _ hK, hzip]
  · intro hN
    rw [hdiag, accuracy, hzip]
    rw [div_mul_cancel₀]
    exact_mod_cast hN

/-- Witness for C4 on three evaluated examples with two classes. -/
theorem C4_confusion_matrix_counts_witness :
    matrixTotal (confusion_matrix 2 [0, 1, 1] [0, 1, 0]) = 3 :=
  (C4_confusion_matrix_counts 2 3 [0, 1, 1] [0, 1, 0] rfl rfl (by decide)).2.2.1

/-- The four scalar metrics Keras records per epoch when a validation set is
supplied (part_001 line 331, part_000 lines 160-165). -/
structure EpochMetrics where
  loss : ℚ
  acc : ℚ
  val_loss : ℚ
  val_acc : ℚ
deriving DecidableEq, Repr

/-- One entry of the Keras training history: the epoch index together with
that epoch's recorded metrics. -/
structure EpochRecord where
  epoch : Nat
  metrics : EpochMetrics
deriving DecidableEq, Repr

/-- Sequential epoch loop of `model.fit` starting at epoch `s` with `n`
epochs left.  `runEpoch e` is the framework's processing of epoch `e`
(mini-batch gradient steps followed by metric aggregation); `none` models an
exception raised mid-epoch, which aborts the whole run with no resumption
(spec section 4.3). -/
def fitFrom (runEpoch : Nat → Option EpochMetrics) : Nat → Nat → Option (List EpochRecord)
  | _, 0 => some []
  | s, n + 1 =>
    match runEpoch s with
    | none => none
    | some m =>
      match fitFrom runEpoch (s + 1) n with
      | none => none
      | some h => some (⟨s, m⟩ :: h)

/-- `history = model.fit(..., epochs=epochs, ...)` (part_001 lines 331-332,
part_000 lines 160-166): run `epochs` sequential epochs from epoch `0` and
collect the per-epoch history, `none` if any epoch raises. -/
def fit (runEpoch : Nat → Option EpochMetrics) (epochs : Nat) : Option (List EpochRecord) :=
  fitFrom runEpoch 0 epochs

lemma fitFrom_spec (runEpoch : Nat → Option EpochMetrics) :
    ∀ n s h, fitFrom runEpoch s n = some h →
      h.length = n ∧ ∀ i (hi : i < h.length),
        (h.get ⟨i, hi⟩).epoch = s + i ∧
        runEpoch (s + i) = some (h.get ⟨i, hi⟩).metrics := by
  intro n
  induction n with
  | zero =>
    intro s h hfit
    have : h = [] := by
      simpa [fitFrom] using hfit.symm
    subst this
    exact ⟨rfl, fun i hi => absurd hi (by simp)⟩
  | succ n ih =>
    intro s h hfit
    rw [fitFrom] at hfit
    cases hm : runEpoch s with
    | none => rw [hm] at hfit; exact absurd hfit (by simp)
    | some m =>
      rw [hm] at hfit
      cases hrec : fitFrom runEpoch (s + 1) n with
      | none => rw [hrec] at hfit; exact absurd hfit (by simp)
      | some h' =>
        rw [hrec] at hfit
        have hh : h = ⟨s, m⟩ :: h' := by
          simpa using hfit.symm
        subst hh
        obtain ⟨hlen, hidx⟩ := ih (s + 1) h' hrec
        refine ⟨by simp [hlen], ?_⟩
        intro i hi
        cases i with
        | zero => simpa using hm
        | succ i =>
          have hi' : i < h'.length := by
            simpa using hi
          have := hidx i hi'
          constructor
          · have : (h'.get ⟨i, hi'⟩).epoch = s + 1 + i := this.1
            simpa [Nat.add_comm, Nat.add_assoc, Nat.add_left_comm] using this
          · have h2 := (hidx i hi').2
            have harr : s + 1 + i = s + (i + 1) := by omega
            rw [harr] at h2
            simpa using h2

/-- C7: after every successful training run configured with `E` epochs, the
training history contains exactly `E` records with no gaps, one record per
completed epoch ordered by epoch index (record `i` belongs to epoch `i` and
holds the metrics `runEpoch` produced for that epoch: loss, accuracy,
validation loss, validation accuracy). -/
theorem C7_history_length (runEpoch : Nat → Option EpochMetrics) (E : Nat)
    (h : List EpochRecord) (hfit : fit runEpoch E = some h) :
    h.length = E ∧ ∀ i (hi : i < h.length),
      (h.get ⟨i, hi⟩).epoch = i ∧
      runEpoch i = some (h.get ⟨i, hi⟩).metrics := by
  obtain ⟨hlen, hidx⟩ := fitFrom_spec runEpoch E 0 h hfit
  refine ⟨hlen, fun i hi => ?_⟩
  have := hidx i hi
  simpa using this

/-- Fixed metrics record used by concrete witnesses. -/
def constMetrics : EpochMetrics := ⟨0, 0, 0, 0⟩

/-- Witness for C7: a three-epoch run yields a history of length three. -/
theorem C7_history_length_witness :
    ([⟨0, constMetrics⟩, ⟨1, constMetrics⟩, ⟨2, constMetrics⟩] : List EpochRecord).length = 3 :=
  (C7_history_length (fun _ => some constMetrics) 3 _ rfl).1

/-- `numpy.random.choice(N, n, replace=False)` (part_001 lines 94 and 97,
part_002 lines 460 and 463): draw `n` distinct indices uniformly from
`0 .. N-1`.  The random state is modelled by `shuffle`, the generator's
permutation of the index range; numpy raises a `ValueError` when `n`
exceeds the population size, modelled by `none`. -/
def numpyRandomChoice (shuffle : List Nat → List Nat) (N n : Nat) : Option (List Nat) :=
  if n ≤ N then some ((shuffle (List.range N)).take n) else none

/-- Fancy indexing `x[mask, :]` (part_001 lines 95-99): select the rows of
`xs` named by `mask`, in mask order. -/
def selectRows {α : Type} (xs : List α) (mask : List Nat) : List α :=
  mask.filterMap fun i => xs[i]?

/-- The four arrays a loader cell produces: normalized train/test feature
rows and one-hot train/test label rows. -/
structure SplitData where
  x_train : List (List ℚ)
  y_train : List (List Nat)
  x_test : List (List ℚ)
  y_test : List (List Nat)

/-- The part_000 loader cell (lines 60-83), slice subsampling.  Faithful to
the source, including line 75: `x_test = x_train[:TEST_EXAMPLES]` slices the
test features out of the already-subsampled *training* features (not out of
the test corpus), while the test labels come from the test corpus. -/
def loadPart000 (xtr : List (List Nat)) (ytr : List Nat)
    (xte : List (List Nat)) (yte : List Nat)
    (TRAIN_EXAMPLES TEST_EXAMPLES num_classes : Nat) : SplitData :=
  let x_train_raw := xtr.take TRAIN_EXAMPLES
  let x_test_raw := x_train_raw.take TEST_EXAMPLES
  { x_train := x_train_raw.map (List.map normalizePixel)
    y_train := (ytr.take TRAIN_EXAMPLES).map (to_categorical · num_classes)
    x_test := x_test_raw.map (List.map normalizePixel)
    y_test := (yte.take TEST_EXAMPLES).map (to_categorical · num_classes) }

/-- The part_001 loader cell (lines 80-107), random-choice subsampling:
draw a train mask over the train corpus and a test mask over the test
corpus, select those rows, normalize features and one-hot the labels.
`none` models the `ValueError` from an over-sized request. -/
def loadPart001 (shuffle : List Nat → List Nat) (xtr : List (List Nat)) (ytr : List Nat)
    (xte : List (List Nat)) (yte : List Nat)
    (TRAIN_EXAMPLES TEST_EXAMPLES num_classes : Nat) : Option SplitData :=
  match numpyRandomChoice shuffle xtr.length TRAIN_EXAMPLES with
  | none => none
  | some train_mask =>
    match numpyRandomChoice shuffle xte.length TEST_EXAMPLES with
    | none => none
    | some test_mask =>
      some
        { x_train := (selectRows xtr train_mask).map (List.map normalizePixel)
          y_train := (selectRows ytr train_mask).map (to_categorical · num_classes)
          x_test := (selectRows xte test_mask).map (List.map normalizePixel)
          y_test := (selectRows yte test_mask).map (to_categorical · num_classes) }

/-- Terminal state of one notebook run: the loader raised, `fit` raised, or
training completed with a history (spec section 4.4 state machine). -/
inductive RunOutcome where
  | loadError : RunOutcome
  | trainError : RunOutcome
  | done : List EpochRecord → RunOutcome
deriving DecidableEq, Repr

/-- Load-then-train pipeline of the part_001 notebook: the loader cell
followed by `model.fit` on the loaded data.  If the loader raises, no call
to the trainer happens. -/
def pipelinePart001 (shuffle : List Nat → List Nat) (xtr : List (List Nat)) (ytr : List Nat)
    (xte : List (List Nat)) (yte : List Nat)
    (TRAIN_EXAMPLES TEST_EXAMPLES num_classes epochs : Nat)
    (runEpoch : SplitData → Nat → Option EpochMetrics) : RunOutcome :=
  match loadPart001 shuffle xtr ytr xte yte TRAIN_EXAMPLES TEST_EXAMPLES num_classes with
  | none => .loadError
  | some d =>
    match fit (runEpoch d) epochs with
    | none => .trainError
    | some h => .done h

/-- Load-then-train pipeline of the part_000 notebook: slice subsampling
followed by `model.fit`. -/
def pipelinePart000 (xtr : List (List Nat)) (ytr : List Nat)
    (xte : List (List Nat)) (yte : List Nat)
    (TRAIN_EXAMPLES TEST_EXAMPLES num_classes epochs : Nat)
    (runEpoch : SplitData → Nat → Option EpochMetrics) : RunOutcome :=
  let d := loadPart000 xtr ytr xte yte TRAIN_EXAMPLES TEST_EXAMPLES num_classes
  match fit (runEpoch d) epochs with
  | none => .trainError
  | some h => .done h

/-- Constant epoch runner used by concrete witnesses. -/
def constRunEpoch : SplitData → Nat → Option EpochMetrics := fun _ _ => some constMetrics

/-- C1 (amended): in the random-choice subsampling variant (part_001), a
requested sample count exceeding the available size of the corresponding
split fails before any training step executes — the pipeline ends in
`loadError` and the trainer is never called.  In the slice-subsampling
variant (part_000), an over-sized request does not fail: the subsample is
silently truncated to the available examples and training proceeds. -/
theorem C1_oversized_request_behaviour (shuffle : List Nat → List Nat)
    (xtr : List (List Nat)) (ytr : List Nat) (xte : List (List Nat)) (yte : List Nat)
    (TRAIN_EXAMPLES TEST_EXAMPLES num_classes epochs : Nat)
    (runEpoch : SplitData → Nat → Option EpochMetrics) :
    (xtr.length < TRAIN_EXAMPLES ∨ xte.length < TEST_EXAMPLES →
      pipelinePart001 shuffle xtr ytr xte yte TRAIN_EXAMPLES TEST_EXAMPLES num_classes
        epochs runEpoch = RunOutcome.loadError) ∧
    (loadPart000 xtr ytr xte yte TRAIN_EXAMPLES TEST_EXAMPLES
        num_classes).x_train.length = min TRAIN_EXAMPLES xtr.length ∧
    pipelinePart000 xtr ytr xte yte TRAIN_EXAMPLES TEST_EXAMPLES num_classes
        epochs runEpoch ≠ RunOutcome.loadError := by
  refine ⟨?_, ?_, ?_⟩
  · intro h
    rw [pipelinePart001, loadPart001]
    by_cases hT : TRAIN_EXAMPLES ≤ xtr.length
    · have hE : ¬ TEST_EXAMPLES ≤ xte.length := by omega
      rw [numpyRandomChoice, if_pos hT, numpyRandomChoice, if_neg hE]
    · rw [numpyRandomChoice, if_neg hT]
  · simp [loadPart000]
  · cases hfit : fit (runEpoch (loadPart000 xtr ytr xte yte TRAIN_EXAMPLES TEST_EXAMPLES
      num_classes)) epochs <;> simp [pipelinePart000, hfit]

/-- Witness for C1: requesting 2 training examples from a 1-example corpus
makes the part_001 pipeline end in `loadError`. -/
theorem C1_oversized_request_behaviour_witness :
    pipelinePart001 id [[0]] [0] [[0]] [0] 2 1 10 1 constRunEpoch = RunOutcome.loadError :=
  (C1_oversized_request_behaviour id [[0]] [0] [[0]] [0] 2 1 10 1 constRunEpoch).1
    (Or.inl (by decide))

/-- Counterexample to C1 as stated: in the part_000 slice variant,
requesting 5 training examples from a 3-example corpus does not fail — the
pipeline reaches the trainer and completes both epochs. -/
theorem C1_counterexample_slice_truncates :
    pipelinePart000 [[0], [1], [2]] [0, 1, 2] [[7]] [7] 5 1 4 2 constRunEpoch
      = RunOutcome.done [⟨0, constMetrics⟩, ⟨1, constMetrics⟩] := rfl

lemma loadPart000_test_eq_train_take (xtr : List (List Nat)) (ytr : List Nat)
    (xte : List (List Nat)) (yte : List Nat) (nTr nTe K : Nat) :
    (loadPart000 xtr ytr xte yte nTr nTe K).x_test
      = (loadPart000 xtr ytr xte yte nTr nTe K).x_train.take nTe := by
  simp [loadPart000, List.map_take]

lemma loadPart000_test_sub_train (xtr : List (List Nat)) (ytr : List Nat)
    (xte : List (List Nat)) (yte : List Nat) (nTr nTe K : Nat) :
    ∀ v ∈ (loadPart000 xtr ytr xte yte nTr nTe K).x_test,
      v ∈ (loadPart000 xtr ytr xte yte nTr nTe K).x_train := by
  intro v hv
  rw [loadPart000_test_eq_train_take] at hv
  exact List.mem_of_mem_take hv

/-- Concrete part_000 loader run exhibiting the test/train aliasing bug:
4-image train corpus, 2-image test corpus, `TRAIN_EXAMPLES = 3`,
`TEST_EXAMPLES = 2`. -/
def part000Demo : SplitData :=
  loadPart000 [[0], [17], [34], [255]] [0, 1, 2, 3] [[9], [9]] [9, 9] 3 2 10

/-- C2 fails on part_000 (code bug): the test features are literally the
first `TEST_EXAMPLES` rows of the training subsample (source line 75
`x_test = x_train[:TEST_EXAMPLES]`), so every test example is also a
training example — the splits are not disjoint. -/
theorem C2_test_reuses_train :
    part000Demo.x_test.length = 2 ∧
    part000Demo.x_test = part000Demo.x_train.take 2 ∧
    ∀ v ∈ part000Demo.x_test, v ∈ part000Demo.x_train := by
  refine ⟨?_, ?_, ?_⟩
  · simp [part000Demo, loadPart000]
  · exact loadPart000_test_eq_train_take _ _ _ _ _ _ _
  · exact loadPart000_test_sub_train _ _ _ _ _ _ _

/-- Concrete part_000 loader run exhibiting the sample-count bug: 3-image
train corpus, 5-image test corpus, `TRAIN_EXAMPLES = 2`,
`TEST_EXAMPLES = 3`. -/
def part000DemoC5 : SplitData :=
  loadPart000 [[0], [1], [2]] [0, 1, 2] [[5], [6], [7], [8], [9]] [5, 6, 7, 8, 9] 2 3 10

/-- C5 fails on part_000 (code bug): with `TEST_EXAMPLES = 3` not exceeding
the 5-example test corpus, the loader returns only `min TEST_EXAMPLES
TRAIN_EXAMPLES = 2` test feature rows (because of source line 75), while it
returns 3 test label rows — not "exactly n examples (feature rows and
matching label rows)". -/
theorem C5_slice_loader_wrong_count :
    part000DemoC5.x_test.length = 2 ∧ part000DemoC5.y_test.length = 3 := by
  constructor <;> simp [part000DemoC5, loadPart000]

/-- Numeric value of a decimal digit character. -/
def digitVal (c : Char) : Nat := c.toNat - 48

/-- Decode a decimal digit string (most significant digit first). -/
def ofDigitsChar (l : List Char) : Nat :=
  l.foldl (fun acc c => acc * 10 + digitVal c) 0

/-- Structural reference implementation of the decimal digit expansion
produced by `Nat.toDigits 10`. -/
def decDigits (n : Nat) : List Char :=
  if h : n < 10 then [Nat.digitChar n]
  else decDigits (n / 10) ++ [Nat.digitChar (n % 10)]
termination_by n
decreasing_by
  exact Nat.div_lt_self (by omega) (by omega)

lemma toDigitsCore_eq_decDigits :
    ∀ f n ds, n < f → Nat.toDigitsCore 10 f n ds = decDigits n ++ ds := by
  intro f
  induction f with
  | zero => intro n ds h; omega
  | succ f ih =>
    intro n ds h
    by_cases h10 : n / 10 = 0
    · have hlt : n < 10 := by
        rcases Nat.lt_or_ge n 10 with h' | h'
        · exact h'
        · exfalso
          have : 1 ≤ n / 10 := Nat.le_div_iff_mul_le (by omega) |>.2 (by omega)
          omega
      have hcore : Nat.toDigitsCore 10 (f + 1) n ds = Nat.digitChar (n % 10) :: ds := by
        simp [Nat.toDigitsCore, h10]
      rw [hcore, decDigits, dif_pos hlt, Nat.mod_eq_of_lt hlt]
      simp
    · have hlt : ¬ n < 10 := by
        intro hc
        exact h10 (Nat.div_eq_of_lt hc)
      have hcore : Nat.toDigitsCore 10 (f + 1) n ds
          = Nat.toDigitsCore 10 f (n / 10) (Nat.digitChar (n % 10) :: ds) := by
        simp [Nat.toDigitsCore, h10]
      have hfuel : n / 10 < f := by
        have : n / 10 < n := Nat.div_lt_self (by omega) (by omega)
        omega
      rw [hcore, ih (n / 10) (Nat.digitChar (n % 10) :: ds) hfuel]
      have hd : decDigits n = decDigits (n / 10) ++ [Nat.digitChar (n % 10)] := by
        conv_lhs => rw [decDigits]
        rw [dif_neg hlt]
      rw [hd, List.append_assoc]
      simp

lemma digitVal_digitChar : ∀ d, d < 10 → digitVal (Nat.digitChar d) = d := by decide

lemma ofDigitsChar_append_digit (l : List Char) (c : Char) :
    ofDigitsChar (l ++ [c]) = ofDigitsChar l * 10 + digitVal c := by
  simp [ofDigitsChar, List.foldl_append]

lemma ofDigitsChar_decDigits : ∀ n, ofDigitsChar (decDigits n) = n := by
  intro n
  induction n using Nat.strong_induction_on with
  | _ n ih =>
    by_cases h : n < 10
    · rw [decDigits, dif_pos h]
      simp [ofDigitsChar, digitVal_digitChar n h]
    · rw [decDigits, dif_neg h]
      rw [ofDigitsChar_append_digit]
      rw [ih (n / 10) (Nat.div_lt_self (by omega) (by omega))]
      rw [digitVal_digitChar (n % 10) (Nat.mod_lt n (by omega))]
      omega

lemma repr_data (n : Nat) : (Nat.repr n).data = decDigits n := by
  rw [Nat.repr, Nat.toDigits]
  rw [toDigitsCore_eq_decDigits (n + 1) n [] (Nat.lt_succ_self n)]
  simp [List.asString]

/-- Decimal printing of naturals is injective. -/
lemma natRepr_inj (m n : Nat) (h : Nat.repr m = Nat.repr n) : m = n := by
  have hdata : decDigits m = decDigits n := by
    rw [← repr_data, ← repr_data, h]
  calc m = ofDigitsChar (decDigits m) := (ofDigitsChar_decDigits m).symm
    _ = ofDigitsChar (decDigits n) := by rw [hdata]
    _ = n := ofDigitsChar_decDigits n

/-- Initial value of the experiment counter (part_000 line 120). -/
def EXPERIMENT_COUNTER : Nat := 1

/-- Per-run log directory name,
`'./logs/experiment-{}'.format(EXPERIMENT_COUNTER)` (part_000 line 157). -/
def log_dir (n : Nat) : String := "./logs/experiment-" ++ Nat.repr n

lemma log_dir_inj (a b : Nat) (h : log_dir a = log_dir b) : a = b := by
  have hdata := congrArg String.data h
  rw [log_dir, log_dir, String.data_append, String.data_append] at hdata
  have hrepr : (Nat.repr a).data = (Nat.repr b).data :=
    List.append_cancel_left hdata
  rw [repr_data, repr_data] at hrepr
  calc a = ofDigitsChar (decDigits a) := (ofDigitsChar_decDigits a).symm
    _ = ofDigitsChar (decDigits b) := by rw [hrepr]
    _ = b := ofDigitsChar_decDigits b

/-- The part_000 training cell (lines 157-166) as a state transition on the
experiment counter: build the TensorBoard callback with the directory named
by the current counter, run `model.fit`, and — only if `fit` returns —
execute `EXPERIMENT_COUNTER += 1`.  A raised exception (`none`) skips the
increment.  Returns (log directory used, fit result, new counter). -/
def trainingCell (fitResult : Option (List EpochRecord)) (counter : Nat) :
    String × Option (List EpochRecord) × Nat :=
  (log_dir counter, fitResult,
    match fitResult with
    | none => counter
    | some _ => counter + 1)

/-- Counter value at the start of run `k` of a session of completed
(successful) training runs; run `k` trains with history `histories k`. -/
def counterAfterRuns (histories : Nat → List EpochRecord) : Nat → Nat
  | 0 => EXPERIMENT_COUNTER
  | k + 1 => (trainingCell (some (histories k)) (counterAfterRuns histories k)).2.2

/-- Log directory written by completed run `k` of the session. -/
def runDir (histories : Nat → List EpochRecord) (k : Nat) : String :=
  (trainingCell (some (histories k)) (counterAfterRuns histories k)).1

lemma counterAfterRuns_eq (histories : Nat → List EpochRecord) :
    ∀ k, counterAfterRuns histories k = 1 + k := by
  intro k
  induction k with
  | zero => rfl
  | succ k ih =>
    simp only [counterAfterRuns, trainingCell, ih]
    omega

/-- C8: distinct completed training runs in one session write their metric
logs to distinct directories: each completed training invocation increments
the experiment counter exactly once, and the log directory name
`logs/experiment-<N>` is derived from the counter value current at that
run. -/
theorem C8_distinct_run_dirs (histories : Nat → List EpochRecord) :
    (∀ k, counterAfterRuns histories (k + 1) = counterAfterRuns histories k + 1) ∧
    (∀ k, runDir histories k = log_dir (counterAfterRuns histories k)) ∧
    (∀ i j, i ≠ j → runDir histories i ≠ runDir histories j) := by
  refine ⟨fun k => rfl, fun k => rfl, ?_⟩
  intro i j hne heq
  have hc : counterAfterRuns histories i = counterAfterRuns histories j :=
    log_dir_inj _ _ heq
  rw [counterAfterRuns_eq, counterAfterRuns_eq] at hc
  omega

/-- Witness for C8: the first two runs of a session use distinct log
directories. -/
theorem C8_distinct_run_dirs_witness :
    runDir (fun _ => []) 0 ≠ runDir (fun _ => []) 1 :=
  (C8_distinct_run_dirs (fun _ => [])).2.2 0 1 (by decide)

/-- C10: if a training invocation fails (`fit` raises before returning), the
experiment counter is left unchanged, so the next training attempt in the
same session uses the same counter value and hence the same log directory
`logs/experiment-<N>` as the failed run. -/
theorem C10_failed_run_keeps_dir (counter : Nat) :
    (trainingCell none counter).2.2 = counter ∧
    (trainingCell none counter).1 = log_dir counter ∧
    ∀ r, (trainingCell r ((trainingCell none counter).2.2)).1
      = (trainingCell none counter).1 :=
  ⟨rfl, rfl, fun _ => rfl⟩

/-- One dense (fully-connected) layer: a weight row per output neuron, a
bias per output neuron, and whether the activation is `relu` (part_001
lines 151-153 build two such layers). -/
structure DenseLayer where
  weights : List (List ℚ)
  bias : List ℚ
  relu : Bool

/-- A sequential model: the ordered list of its layers; the parameters of
the model are exactly the layers' weights and biases. -/
def Model : Type := List DenseLayer

/-- Dot product of two equal-length vectors. -/
def dot (a b : List ℚ) : ℚ := ((a.zip b).map fun q => q.1 * q.2).sum

/-- Forward computation of one dense layer on an input vector. -/
def denseForward (L : DenseLayer) (x : List ℚ) : List ℚ :=
  (L.weights.zip L.bias).map fun wb =>
    if L.relu then max (dot wb.1 x + wb.2) 0 else dot wb.1 x + wb.2

/-- Forward pass of the whole sequential model. -/
def forward (m : Model) (x : List ℚ) : List ℚ :=
  m.foldl (fun v L => denseForward L v) x

/-- Mean squared error between a prediction vector and a target vector
(the `losses.mean_squared_error` loss compiled in part_002 line 400;
the cross-entropy variants need real logarithms, which do not affect any
property verified here). -/
def mseLoss (pred target : List ℚ) : ℚ :=
  (((pred.zip target).map fun q => (q.1 - q.2) ^ 2).sum) / (pred.length : ℚ)

/-- `model.evaluate(x_test, y_test, verbose=0)` (part_001 line 514,
part_002 line 507): one pass over the held-out split computing the scalar
loss and the accuracy metric.  A pure function of the model and the data. -/
def evaluateModel (m : Model) (xs : List (List ℚ)) (ys : List (List Nat)) : ℚ × ℚ :=
  let pairs := xs.zip ys
  let loss := ((pairs.map fun q => mseLoss (forward m q.1) (q.2.map fun v => (v : ℚ))).sum)
      / (pairs.length : ℚ)
  let correct := (pairs.filter fun q => argmaxIdx (forward m q.1) == argmaxIdx q.2).length
  (loss, (correct : ℚ) / (pairs.length : ℚ))

/-- `model.predict_classes(x_test)` (part_001 line 542): per-example
predicted class labels, the argmax of the model's output distribution. -/
def predict_classes (m : Model) (xs : List (List ℚ)) : List Nat :=
  xs.map fun x => argmaxIdx (forward m x)

/-- State visible to the evaluation cells of part_001: the trained model,
the held-out split, and the two result variables those cells assign
(`score`, line 514, and `prediction`, line 542). -/
structure EvalState where
  model : Model
  x_test : List (List ℚ)
  y_test : List (List Nat)
  score : Option (ℚ × ℚ)
  prediction : Option (List Nat)

/-- The cell `score = model.evaluate(x_test, y_test, verbose=0)`
(part_001 lines 514-516) as a state transition. -/
def evaluateCell (s : EvalState) : EvalState :=
  { s with score := some (evaluateModel s.model s.x_test s.y_test) }

/-- The cell `prediction = model.predict_classes(x_test)` (part_001
line 542) as a state transition. -/
def predictCell (s : EvalState) : EvalState :=
  { s with prediction := some (predict_classes s.model s.x_test) }

/-- C9: the evaluator/reporter is read-only with respect to the model: for
every trained model and held-out split, computing loss/metrics via
`evaluate` and deriving predicted class labels leaves every parameter of
the model (every layer's weights and biases) unchanged, while only the
result variables are updated. -/
theorem C9_evaluator_readonly (s : EvalState) :
    (evaluateCell s).model = s.model ∧
    (predictCell s).model = s.model ∧
    (predictCell (evaluateCell s)).model = s.model ∧
    (evaluateCell s).score = some (evaluateModel s.model s.x_test s.y_test) ∧
    (predictCell s).prediction = some (predict_classes s.model s.x_test) :=
  ⟨rfl, rfl, rfl, rfl, rfl⟩
